import Mathlib

/-!
# Verification of datalad-core behaviors

A shallow embedding of selected functions of the `datalad-core` Python
library, together with theorems settling specification claims about them.

Each definition is translated from the corresponding Python source file
(named in its doc comment). Python dictionaries become association lists,
Python exceptions become `Option`/`Except` results, and Python value
dynamism is captured by small inductive universes of the values that can
actually reach the modelled code.
-/

namespace DataladCore

/-! ## Config: `anything2bool` (src/datalad_core/config/defaults.py) -/

/-- A Python value as it can be passed to `anything2bool`:
a string, a boolean, an integer, `None`, or a list (only truthiness of a
list matters, so it is represented by its length witness). -/
inductive PyVal where
  | str (s : String)
  | bool (b : Bool)
  | int (i : Int)
  | none
  | list (n : Nat)
deriving DecidableEq, Repr

/-- Python truthiness (`bool(val)`) for the modelled values. -/
def pyTruthy : PyVal → Bool
  | .str s => s ≠ ""
  | .bool b => b
  | .int i => i ≠ 0
  | .none => false
  | .list n => n ≠ 0

/-- The error kinds `anything2bool` can raise: the explicit
`ValueError('Cannot interpret ... as a boolean')`, and the `TypeError`
(`unhashable type: 'list'`) raised by testing an unhashable value for
set membership. -/
inductive PyError where
  | typeError
  | valueError
deriving DecidableEq, Repr

/-- Hashability of the modelled values: lists are unhashable, so testing
them for set membership raises `TypeError`. -/
def pyHashable : PyVal → Bool
  | .list _ => false
  | _ => true

/-- `val.lower()` applied when the value has a `lower` attribute
(only strings do, among the modelled values). -/
def pyLower : PyVal → PyVal
  | .str s => .str s.toLower
  | v => v

/-- Python `val in {'off', 'no', 'false', '0'}`: set membership hashes
the candidate first, so an unhashable list raises `TypeError`;
otherwise comparison is by `==`, and no modelled non-string value
equals any of these strings. -/
def inFalseSet : PyVal → Except PyError Bool
  | .str s => .ok (s = "off" ∨ s = "no" ∨ s = "false" ∨ s = "0")
  | .list _ => .error .typeError
  | _ => .ok false

/-- Python `val in {'on', 'yes', 'true', True}`: again membership hashes
first (`TypeError` for a list); `True == 1` in Python, so the integer 1
and the boolean `True` are members; no other modelled non-string value
is. -/
def inTrueSet : PyVal → Except PyError Bool
  | .str s => .ok (s = "on" ∨ s = "yes" ∨ s = "true")
  | .bool b => .ok b
  | .int i => .ok (i = 1)
  | .list _ => .error .typeError
  | .none => .ok false

/-- The numeric value of a decimal digit sequence (`int(...)` on the
output of a successful `isdigit` test). -/
def digitsVal (l : List Char) : Nat :=
  l.foldl (fun n c => n * 10 + (c.toNat - 48)) 0

/-- `hasattr(val, 'isdigit') and val.isdigit()`: strings only, requiring a
non-empty all-digit string (ASCII digits; the values reaching this code
are git-config boolean spellings). -/
def pyIsdigit : PyVal → Bool
  | .str s => s.data ≠ [] ∧ s.data.all Char.isDigit
  | _ => false

/-- `int(val)` for a digit string (0 for non-strings; only reached after
`pyIsdigit` succeeded). -/
def pyStrToInt : PyVal → Nat
  | .str s => digitsVal s.data
  | _ => 0

/-- `isinstance(val, int)`: Python booleans are instances of `int`. -/
def pyIsInt : PyVal → Bool
  | .int _ => true
  | .bool _ => true
  | _ => false

/-- `anything2bool` from src/datalad_core/config/defaults.py.
`.ok b` models returning `b`; `.error .valueError` models raising
`ValueError('Cannot interpret ... as a boolean')`, and
`.error .typeError` the `TypeError` raised by the set-membership test
on an unhashable value — Python evaluates `val in` the false-spelling
set before `not bool(val)`, so that error preempts the falsiness
check. -/
def anything2bool (val : PyVal) : Except PyError Bool :=
  if val = .str "" then
    .ok false
  else
    let val := pyLower val
    match inFalseSet val with
    | .error e => .error e
    | .ok bf =>
      if bf ∨ ¬ pyTruthy val then
        .ok false
      else
        match inTrueSet val with
        | .error e => .error e
        | .ok bt =>
          if bt ∨ (pyIsdigit val ∧ pyStrToInt val ≠ 0) ∨
              (pyIsInt val ∧ pyTruthy val) then
            .ok true
          else
            .error .valueError

/-! ## Runners: `call_git_oneline` (src/datalad_core/runners/git.py) -/

/-- The error kinds `call_git_oneline` can surface: a `CommandError` from a
non-zero git exit (propagated out of `call_git_lines`), the explicit
`AssertionError` for more than one output line, and the `IndexError`
produced by evaluating `lines[0]` on an empty list. -/
inductive RunError where
  | commandError
  | assertionError
  | indexError
deriving DecidableEq, Repr

/-- `lines[0]` on a Python list: `IndexError` when the list is empty. -/
def pyFirst : List String → Except RunError String
  | [] => .error .indexError
  | l :: _ => .ok l

/-- `call_git_oneline` from src/datalad_core/runners/git.py, abstracted
over the outcome of the underlying `call_git_lines` invocation
(`.error` models a `CommandError` from a non-zero exit, `.ok lines` the
captured stdout lines). -/
def call_git_oneline (linesResult : Except Unit (List String)) :
    Except RunError String :=
  match linesResult with
  | .error _ => .error .commandError
  | .ok lines =>
    if lines.length > 1 then
      .error .assertionError
    else
      pyFirst lines

/-! ## Commands: `StandardResultHandler` (src/datalad_core/commands/default_result_handler.py) -/

/-- A command result record, as far as `StandardResultHandler.__call__`
inspects it: Python truthiness of the mapping, presence of an `action`
key, and the value of the `status` key. -/
structure DlResult where
  truthy : Bool
  hasAction : Bool
  status : String
deriving DecidableEq, Repr

/-- `not res or 'action' not in res` — the drop condition of the handler
loop. -/
def DlResult.dropped (r : DlResult) : Bool :=
  ¬ r.truthy ∨ ¬ r.hasAction

/-- `res['status'] in ('impossible', 'error')` — the failure condition. -/
def DlResult.failing (r : DlResult) : Bool :=
  r.status = "impossible" ∨ r.status = "error"

/-- The iteration loop of `StandardResultHandler.__call__` over the
producer's results: returns the pair of (results yielded by the
generator, recorded `error_results`). The default `transform_result`
yields each result unchanged. Under `on_failure='stop'` the first
recorded failure `break`s out of the loop before the `yield from`
statement is reached. -/
def srhLoop (onFailure : String) : List DlResult → List DlResult × List DlResult
  | [] => ([], [])
  | res :: rest =>
    if res.dropped then
      srhLoop onFailure rest
    else if (onFailure = "continue" ∨ onFailure = "stop") ∧ res.failing then
      if onFailure = "stop" then
        ([], [res])
      else
        let acc := srhLoop onFailure rest
        (res :: acc.1, res :: acc.2)
    else
      let acc := srhLoop onFailure rest
      (res :: acc.1, acc.2)

/-- `StandardResultHandler.__call__`: the yielded result sequence, the
`error_results` attached to a raised `ResultError`, and whether
`ResultError` is raised at all (it is iff `error_results` is non-empty). -/
def standardResultHandler (onFailure : String) (results : List DlResult) :
    List DlResult × List DlResult × Bool :=
  let acc := srhLoop onFailure results
  (acc.1, acc.2, ¬ acc.2.isEmpty)

/-! ## Constraints: `&`/`|` combination (src/datalad_core/constraints/constraint.py) -/

/-- A constraint term: an atomic constraint (identified by an index into an
environment of atomic validators), or the `AllOf`/`AnyOf` combinators over
a list of constraints. -/
inductive Constraint where
  | base (i : Nat)
  | allOf (cs : List Constraint)
  | anyOf (cs : List Constraint)
deriving Repr

/-- `a & b`. Python dispatches on the runtime type of the left operand:
`AllOf.__and__` flattens a left `AllOf` (and additionally a right
`AllOf`), while the base `Constraint.__and__` wraps both operands in a
fresh `AllOf` without inspecting the right operand. -/
def cand : Constraint → Constraint → Constraint
  | .allOf cs, .allOf os => .allOf (cs ++ os)
  | .allOf cs, o => .allOf (cs ++ [o])
  | c, o => .allOf [c, o]

/-- `a | b`, symmetric to `cand`: only a left `AnyOf` flattens. -/
def cor : Constraint → Constraint → Constraint
  | .anyOf cs, .anyOf os => .anyOf (cs ++ os)
  | .anyOf cs, o => .anyOf (cs ++ [o])
  | c, o => .anyOf [c, o]

mutual

/-- Evaluation of a constraint on a value. An environment `env` gives the
semantics of each atomic constraint (`none` models raising). `AllOf`
pipes each constraint's output into the next and propagates any failure;
`AnyOf` returns the first success and fails when all alternatives fail. -/
def ceval (env : Nat → Nat → Option Nat) : Constraint → Nat → Option Nat
  | .base i, v => env i v
  | .allOf cs, v => cevalAll env cs v
  | .anyOf cs, v => cevalAny env cs v

/-- `AllOf.__call__`: left-to-right pipeline. -/
def cevalAll (env : Nat → Nat → Option Nat) : List Constraint → Nat → Option Nat
  | [], v => some v
  | c :: cs, v =>
    match ceval env c v with
    | some v2 => cevalAll env cs v2
    | Option.none => Option.none

/-- `AnyOf.__call__`: first success wins. -/
def cevalAny (env : Nat → Nat → Option Nat) : List Constraint → Nat → Option Nat
  | [], _ => Option.none
  | c :: cs, v =>
    match ceval env c v with
    | some r => some r
    | Option.none => cevalAny env cs v

end

/-! ## Config: `GitEnvironment.overrides` (src/datalad_core/config/gitenv.py) -/

/-- The `GIT_CONFIG_KEY_n`/`GIT_CONFIG_VALUE_n` environment content as a
mapping from configuration key to its (possibly multi-valued) value
tuple; absence of a key from the list models absence from the process
environment. Values stored in the environment are never empty tuples. -/
def GitEnv := List (String × List String)

instance : DecidableEq GitEnv := by
  unfold GitEnv
  infer_instance

/-- Lookup of a key's value tuple in the environment. -/
def envGet (e : GitEnv) (k : String) : Option (List String) :=
  match e with
  | [] => Option.none
  | (k2, vs) :: rest => if k2 = k then some vs else envGet rest k

/-- `_setall`/`_set_item`: (re)bind a key to a value tuple. -/
def envSetAll (e : GitEnv) (k : String) (vs : List String) : GitEnv :=
  match e with
  | [] => [(k, vs)]
  | (k2, vs2) :: rest =>
    if k2 = k then (k, vs) :: rest else (k2, vs2) :: envSetAll rest k vs

/-- `_del_item`: remove a key. -/
def envDel (e : GitEnv) (k : String) : GitEnv :=
  match e with
  | [] => []
  | (k2, vs2) :: rest => if k2 = k then rest else (k2, vs2) :: envDel rest k

/-- A `ConfigItem` as far as the override logic inspects it: `none` models
an item whose `pristine_value` is the `UnsetValue` sentinel, `some v` a
real value. -/
def OvItem := Option String

instance : DecidableEq OvItem := by
  unfold OvItem
  infer_instance

/-- `getall(k, item_type(UnsetValue))`: the snapshot taken for one key
before overriding — the key's value tuple when present, otherwise the
one-element tuple holding the unset default. -/
def envSnapshot (e : GitEnv) (k : String) : List OvItem :=
  match envGet e k with
  | some vs => vs.map some
  | Option.none => [Option.none]

/-- The first loop of `GitEnvironment.overrides`: records each key's
snapshot in `restore` (in mapping order) and applies the override. -/
def applyOverrides (e : GitEnv) :
    List (String × List String) → GitEnv × List (String × List OvItem)
  | [] => (e, [])
  | (k, vs) :: rest =>
    let snap := envSnapshot e k
    let acc := applyOverrides (envSetAll e k vs) rest
    (acc.1, (k, snap) :: acc.2)

/-- The `finally` restore loop of `GitEnvironment.overrides`. A key whose
snapshot is the single unset sentinel is deleted again — and then the
loop `break`s, leaving every remaining `restore` entry unprocessed.
Other keys are restored via `setall`. -/
def restoreLoop (e : GitEnv) : List (String × List OvItem) → GitEnv
  | [] => e
  | (k, vals) :: rest =>
    if vals.length = 1 ∧ vals.head? = some Option.none then
      envDel e k
    else
      restoreLoop (envSetAll e k (vals.filterMap id)) rest

/-- `GitEnvironment.overrides` as a whole, with a body that performs no
configuration changes of its own: apply the overrides, then run the
restore loop. -/
def overridesRun (e : GitEnv) (ovs : List (String × List String)) : GitEnv :=
  let acc := applyOverrides e ovs
  restoreLoop acc.1 acc.2

/-! ## Repo model: flyweight construction (src/datalad_core/repo/flyweight.py) -/

/-- An absolute filesystem path, as a list of name segments. Distinct
segment lists can still denote the same on-disk location (unnormalized
`..` components, symlinked names), which is exactly why two requests can
"resolve to the same location" while their `Path.absolute()` spellings
differ: `Path.absolute()` performs no normalization. -/
abbrev PathA := List String

/-- The flyweight bookkeeping shared by `Repo`/`Worktree`: the
`_unique_instances` weak-value cache keyed by the requested
`path.absolute()`, the resolved `path` attribute of each constructed
instance, and a counter producing fresh instance identities. -/
structure FlyState where
  cache : List (PathA × Nat)
  instPath : List (Nat × PathA)
  nextId : Nat
deriving DecidableEq, Repr

/-- `_unique_instances.get(id_, None)`. -/
def cacheGet (c : List (PathA × Nat)) (p : PathA) : Option Nat :=
  match c with
  | [] => Option.none
  | (p2, i) :: rest => if p2 = p then some i else cacheGet rest p

/-- The `path` attribute of a live instance. -/
def instPathGet (c : List (Nat × PathA)) (i : Nat) : Option PathA :=
  match c with
  | [] => Option.none
  | (i2, p) :: rest => if i2 = i then some p else instPathGet rest i

/-- `PathBasedFlyweight.__call__` specialized to `Worktree`:
`id_ = path.absolute()` (the requested path itself, as paths are modelled
absolute); a cache hit whose instance is still `flyweight_valid` (all
cached instances are taken to be valid here, matching the claim's
proviso) is returned; otherwise `type.__call__(cls, path)` runs
`Worktree.__init__`, which resolves the worktree root via
`git rev-parse --show-toplevel` — modelled by `root` — and the new
instance is cached under `id_`. `none` models the `ValueError` raised
when `path` is not inside a worktree. -/
def worktreeCall (root : PathA → Option PathA) (s : FlyState) (p : PathA) :
    Option (Nat × FlyState) :=
  match cacheGet s.cache p with
  | some inst => some (inst, s)
  | Option.none =>
    match root p with
    | Option.none => Option.none
    | some r =>
      some (s.nextId,
        { cache := (p, s.nextId) :: s.cache,
          instPath := (s.nextId, r) :: s.instPath,
          nextId := s.nextId + 1 })

/-! ## Repo model: tailored config managers
(src/datalad_core/repo/repo.py, src/datalad_core/repo/worktree.py) -/

/-- A configuration source instance, as identified by what it is bound to.
The parameter-free constructors are the process-global instances shared
via `get_manager()`; equality of `SrcSpec` values models sharing of the
same source instance. -/
inductive SrcSpec where
  | gitEnv
  | globalCfg
  | systemCfg
  | defaultsSrc
  | localCfg (p : PathA)
  | dataladBranch (p : PathA)
  | worktreeCfg (p : PathA)
deriving DecidableEq, Repr

/-- A `ConfigManager` reduced to what `Repo.config`/`Worktree.config`
determine: the ordered scope-name → source mapping (precedence order,
highest first; `defaults` always appended by the constructor) and the
set of scopes declared protected. -/
structure ScopeMgr where
  sources : List (String × SrcSpec)
  protectedKeys : List String
deriving DecidableEq, Repr

/-- Scope lookup on a manager. -/
def ScopeMgr.src (m : ScopeMgr) (name : String) : Option SrcSpec :=
  match m.sources with
  | [] => Option.none
  | _ => lookupSrc m.sources name
where
  lookupSrc : List (String × SrcSpec) → String → Option SrcSpec
    | [], _ => Option.none
    | (n, s) :: rest, name => if n = name then some s else lookupSrc rest name

/-- `ConfigManager.declare_source_protected`: adds a known scope to the
protected set (the `ValueError` branch for an unknown scope is never
reached by the modelled callers and is represented by leaving the
manager unchanged). -/
def declareProtected (m : ScopeMgr) (k : String) : ScopeMgr :=
  if (m.src k).isSome then
    { m with protectedKeys := m.protectedKeys ++ [k] }
  else
    m

/-- `Repo.config` (src/datalad_core/repo/repo.py): shares the
`git-command`/`git-global`/`git-system`/`defaults` instances of the
global manager, adds `git-local` and `datalad-branch` sources bound to
the repository path, and declares `git-local` protected. -/
def repoConfig (repoPath : PathA) : ScopeMgr :=
  declareProtected
    { sources := [("git-command", SrcSpec.gitEnv),
                  ("git-local", SrcSpec.localCfg repoPath),
                  ("git-global", SrcSpec.globalCfg),
                  ("git-system", SrcSpec.systemCfg),
                  ("datalad-branch", SrcSpec.dataladBranch repoPath),
                  ("defaults", SrcSpec.defaultsSrc)],
      protectedKeys := ["git-command", "git-global", "git-system", "defaults"] }
    "git-local"

/-- `Worktree.config` (src/datalad_core/repo/worktree.py). `wtPath` is the
worktree root, `repoPath` the git directory of the owning `Repo`, and
`enabled` the outcome of
`rman.get('extensions.worktreeConfig', False).value is not False`.
In both branches a fresh `DataladBranchConfig` bound to the worktree
path is created, the other scopes reuse the owning repo manager's
source instances, and a new `ConfigManager` is constructed;
`git-local` (and `git-worktree`, when present) are declared protected. -/
def worktreeConfig (wtPath repoPath : PathA) (enabled : Bool) : ScopeMgr :=
  let dlbranch := SrcSpec.dataladBranch wtPath
  let rman := repoConfig repoPath
  let rsrc := fun (name : String) (dflt : SrcSpec) => (rman.src name).getD dflt
  let srcs :=
    if enabled = false then
      [("git-command", rsrc "git-command" SrcSpec.gitEnv),
       ("git-local", rsrc "git-local" (SrcSpec.localCfg repoPath)),
       ("git-global", rsrc "git-global" SrcSpec.globalCfg),
       ("git-system", rsrc "git-system" SrcSpec.systemCfg),
       ("datalad-branch", dlbranch)]
    else
      [("git-command", rsrc "git-command" SrcSpec.gitEnv),
       ("git-worktree", SrcSpec.worktreeCfg wtPath),
       ("git-local", rsrc "git-local" (SrcSpec.localCfg repoPath)),
       ("git-global", rsrc "git-global" SrcSpec.globalCfg),
       ("git-system", rsrc "git-system" SrcSpec.systemCfg),
       ("datalad-branch", dlbranch)]
  let lman : ScopeMgr :=
    { sources := srcs ++ [("defaults", rsrc "defaults" SrcSpec.defaultsSrc)],
      protectedKeys := ["git-command", "git-global", "git-system", "defaults"] }
  let lman := declareProtected lman "git-local"
  if (lman.src "git-worktree").isSome then
    declareProtected lman "git-worktree"
  else
    lman

/-! ## Config: `ConfigManager.get_from_protected_sources`
(src/datalad_core/config/manager.py) -/

/-- A configuration item as the protected-source fold inspects it:
`pristine` is the raw value (`none` modelling the `UnsetValue`
sentinel), `coercer` identifies the item's coercion rule and stands for
its type/shape. -/
structure CItem where
  pristine : Option String
  coercer : Option Nat
deriving DecidableEq, Repr

/-- Modelled from the spec: `ConfigItem`/`Setting.update` is supplied by
`datalad_core.config.item` and the settings toolkit, which are not part
of the modelled sources; per the specification the fold in
`get_from_protected_sources` makes "the type/shape come from the
lowest-precedence protected definition while the value comes from the
highest", so `update` adopts the other item's value while keeping the
receiver's coercion rule. -/
def CItem.update (self other : CItem) : CItem :=
  { pristine := other.pristine, coercer := self.coercer }

/-- One configuration source with its scope name and key → item content. -/
structure CfgScope where
  name : String
  contents : List (String × CItem)
deriving DecidableEq, Repr

/-- `source[key]` (`none` models the `KeyError` branch). -/
def scopeGet (sc : CfgScope) (key : String) : Option CItem :=
  go sc.contents key
where
  go : List (String × CItem) → String → Option CItem
    | [], _ => Option.none
    | (k, it) :: rest, key => if k = key then some it else go rest key

/-- A `ConfigManager` as `get_from_protected_sources` inspects it:
sources in precedence order (highest first, matching the source-dict
iteration order) and the `_protected_source_keys` set. -/
structure CfgManager where
  sources : List CfgScope
  protectedKeys : List String
deriving DecidableEq, Repr

/-- The folding step of `get_from_protected_sources` applied to one scope
(skipping non-protected scopes and scopes without the key; the first
protected definition seeds the accumulator, later ones are folded in via
`update`). -/
def protStep (m : CfgManager) (key : String) (acc : Option CItem)
    (sc : CfgScope) : Option CItem :=
  if m.protectedKeys.contains sc.name then
    match scopeGet sc key with
    | Option.none => acc
    | some it =>
      match acc with
      | Option.none => some it
      | some cur => some (cur.update it)
  else
    acc

/-- `ConfigManager.get_from_protected_sources`
(src/datalad_core/config/manager.py): iterate the scopes from the back
(lowest precedence first), consider only protected ones, seed from the
first protected definition and fold higher-precedence protected values
in via `update`; fall back to the default, which is also folded in when
the result's raw value is still the unset sentinel. -/
def getFromProtectedSources (m : CfgManager) (key : String) (dflt : CItem) :
    CItem :=
  let folded := m.sources.reverse.foldl (protStep m key) Option.none
  let item :=
    match folded with
    | Option.none => dflt
    | some it => it
  if item.pristine = Option.none then item.update dflt else item

/-- The sequence of items that the protected fold actually consumes: the
items defined for `key` by protected scopes, lowest precedence first. -/
def protChain (m : CfgManager) (key : String) : List CItem :=
  (m.sources.reverse.filter fun sc => m.protectedKeys.contains sc.name).filterMap
    fun sc => scopeGet sc key

/-- One step of the item fold: the first protected definition seeds the
accumulator, every later one is folded in via the update rule. -/
def chainStep (acc : Option CItem) (it : CItem) : Option CItem :=
  match acc with
  | Option.none => some it
  | some cur => some (cur.update it)

/-- The specified behavior of `get_from_protected_sources`, expressed
directly over the chain of protected definitions (lowest precedence
first): fold them with the update rule, fall back to the default, and
fold the default in when the result is still unset. -/
def protFoldSpec (chain : List CItem) (dflt : CItem) : CItem :=
  let folded := chain.foldl chainStep Option.none
  let item :=
    match folded with
    | Option.none => dflt
    | some it => it
  if item.pristine = Option.none then item.update dflt else item

/-- A concrete four-scope manager: `git-command` empty, `git-local`
defining `k` with a value and coercer 2, an (unprotected)
`datalad-branch` defining `k`, and `defaults` defining `k` as unset with
coercer 1. -/
def demoMgr1 : CfgManager :=
  { sources := [⟨"git-command", []⟩,
                ⟨"git-local", [("k", ⟨some "local", some 2⟩)]⟩,
                ⟨"datalad-branch", [("k", ⟨some "evil", Option.none⟩)]⟩,
                ⟨"defaults", [("k", ⟨Option.none, some 1⟩)]⟩],
    protectedKeys := ["git-command", "git-global", "git-system", "defaults",
                      "git-local"] }

/-- `demoMgr1` with arbitrarily different content in the non-protected
`datalad-branch` scope. -/
def demoMgr2 : CfgManager :=
  { sources := [⟨"git-command", []⟩,
                ⟨"git-local", [("k", ⟨some "local", some 2⟩)]⟩,
                ⟨"datalad-branch", [("k", ⟨some "other", Option.none⟩),
                                    ("k2", ⟨some "extra", Option.none⟩)]⟩,
                ⟨"defaults", [("k", ⟨Option.none, some 1⟩)]⟩],
    protectedKeys := ["git-command", "git-global", "git-system", "defaults",
                      "git-local"] }

/-! ## Iter-collections: `_iter_gitworktree` record buffering
(src/datalad_core/iter_collections/gitworktree.py) -/

/-- A `WorktreeItem` as produced by `_lsfiles_line2item`: the relative
path (as POSIX segments), and the `gitsha`/`gittype` of a tracked
record (both absent for untracked records). -/
structure WtItem where
  relpath : List String
  gitsha : Option String
  gittype : Option String
deriving DecidableEq, Repr

/-- `pending_item and item.relpath != pending_item.relpath` — does the
current record's path differ from the buffered one (false whenever
either is the `None` sentinel)? -/
def relDiffers : Option WtItem → Option WtItem → Bool
  | some p, some i => decide (i.relpath ≠ p.relpath)
  | _, _ => false

/-- The record loop of `_iter_gitworktree` over parsed `ls-files` records
(the trailing `Option.none` input element models the appended fake
`None` record). State: the buffered `pending_item` and the
`reported_dirs` set of the non-recursive mode (`singleDir` models
`recursion == 'none'`). Each branch mirrors one path through the Python
loop body; the two `match` fallbacks for an absent `pending_item` are
unreachable because the loop returns as soon as both the pending item
and the current record are `None`. -/
def wtLoop (singleDir : Bool) :
    Option WtItem → List (List String) → List (Option WtItem) → List WtItem
  | _, _, [] => []
  | pending, dirs, line :: rest =>
    if pending.isNone ∧ line.isNone then
      []
    else
      let item := line
      if item.isNone ∨ relDiffers pending item then
        match pending with
        | Option.none => wtLoop singleDir item dirs rest
        | some p =>
          if singleDir ∧ p.relpath.length > 1 then
            match p.relpath.head? with
            | Option.none => wtLoop singleDir item dirs rest
            | some d =>
              if dirs.contains [d] then
                wtLoop singleDir item dirs rest
              else
                { relpath := [d], gitsha := Option.none,
                  gittype := some "directory" } ::
                  wtLoop singleDir item ([d] :: dirs) rest
          else
            p :: wtLoop singleDir item dirs rest
      else
        wtLoop singleDir item dirs rest

/-- `_iter_gitworktree` restricted to its record-buffering behavior: run
the loop over the parsed records followed by the fake `None` record. -/
def iterGitworktreeRecords (singleDir : Bool) (records : List WtItem) :
    List WtItem :=
  wtLoop singleDir Option.none [] (records.map some ++ [Option.none])

/-- The specified suppression rule, stated directly: a record is emitted
only once the next record's path differs (or the input ends), so within
any run of adjacent same-path records only the last survives. -/
def dedupLast : List WtItem → List WtItem
  | [] => []
  | [x] => [x]
  | x :: y :: rest =>
    if x.relpath = y.relpath then dedupLast (y :: rest)
    else x :: dedupLast (y :: rest)

/-! ## Iter-collections: `_get_diff_item`
(src/datalad_core/iter_collections/gitdiff.py, maps from
src/datalad_core/iter_collections/utils.py) -/

/-- `GitTreeItemType` (src/datalad_core/iter_collections/utils.py). -/
inductive TreeItemType where
  | file
  | executablefile
  | symlink
  | directory
  | submodule
deriving DecidableEq, Repr

/-- `GitDiffStatus` (src/datalad_core/iter_collections/utils.py). -/
inductive DiffStatus where
  | addition
  | copy
  | deletion
  | modification
  | rename
  | typechange
  | unmerged
  | unknown
  | other
deriving DecidableEq, Repr

/-- `GitContainerModificationType`
(src/datalad_core/iter_collections/utils.py). -/
inductive ContainerModificationType where
  | new_commits
  | untracked_content
  | modified_content
deriving DecidableEq, Repr

/-- `git_mode_type_map.get(mode, None)`. -/
def git_mode_type_map (m : String) : Option TreeItemType :=
  if m = "100644" then some .file
  else if m = "100755" then some .executablefile
  else if m = "040000" then some .directory
  else if m = "120000" then some .symlink
  else if m = "160000" then some .submodule
  else Option.none

/-- `git_diffstatus_map[c]` (`none` models the `KeyError` for an unknown
status letter). -/
def git_diffstatus_map (c : Char) : Option DiffStatus :=
  if c = 'A' then some .addition
  else if c = 'C' then some .copy
  else if c = 'D' then some .deletion
  else if c = 'M' then some .modification
  else if c = 'R' then some .rename
  else if c = 'T' then some .typechange
  else if c = 'U' then some .unmerged
  else if c = 'X' then some .unknown
  else if c = 'O' then some .other
  else Option.none

/-- `GitDiffItem` (src/datalad_core/iter_collections/gitdiff.py), with the
fields `_get_diff_item` populates. -/
structure DiffItem where
  relpath : String
  prev_relpath : Option String
  gitsha : Option String
  prev_gitsha : Option String
  gittype : Option TreeItemType
  prev_gittype : Option TreeItemType
  status : DiffStatus
  percentage : Option Nat
  modification_types : Option (List ContainerModificationType)
deriving DecidableEq, Repr

/-- `40 * '0'` — the all-zero object id. -/
def zeros40 : String := String.mk (List.replicate 40 '0')

/-- `None if sha == 40 * '0' else sha`. -/
def shaOfField (s : String) : Option String :=
  if s = zeros40 then Option.none else some s

/-- `_get_diff_item` (src/datalad_core/iter_collections/gitdiff.py):
decode one raw `git diff-tree`/`diff-index` record (already split on
spaces and tabs into its fields). `none` models the `IndexError`/
`KeyError`/`ValueError` paths on malformed records (they cannot occur
for records produced by Git). -/
def get_diff_item (spec : List String) : Option DiffItem :=
  match spec.get? 0, spec.get? 1, spec.get? 2, spec.get? 3, spec.get? 4 with
  | some s0, some s1, some s2, some s3, some s4 =>
    let prev_gittype := git_mode_type_map s0
    let gittype := git_mode_type_map s1
    let prev_gitsha := shaOfField s2
    let gitsha := shaOfField s3
    match s4.toList.head? with
    | Option.none => Option.none
    | some c =>
      match git_diffstatus_map c with
      | Option.none => Option.none
      | some status =>
        let pctParse : Option (Option Nat) :=
          if s4.length > 1 then
            match ((s4.toList.drop 1).asString).toNat? with
            | some n => some (some n)
            | Option.none => Option.none
          else
            some Option.none
        match pctParse with
        | Option.none => Option.none
        | some percentage =>
          if status = DiffStatus.addition then
            match spec.get? 5 with
            | Option.none => Option.none
            | some rel =>
              some { relpath := rel, prev_relpath := Option.none,
                     gitsha, prev_gitsha, gittype, prev_gittype, status,
                     percentage,
                     modification_types :=
                       if gitsha = Option.none then
                         some [ContainerModificationType.modified_content]
                       else Option.none }
          else
            match spec.get? 5 with
            | Option.none => Option.none
            | some p5 =>
              match (if spec.length > 6 then spec.get? 6 else some p5) with
              | Option.none => Option.none
              | some rel =>
                some { relpath := rel, prev_relpath := some p5,
                       gitsha, prev_gitsha, gittype, prev_gittype, status,
                       percentage, modification_types := Option.none }
  | _, _, _, _, _ => Option.none

/-- A concrete resolution environment for the flyweight model: one
worktree rooted at `["repo"]`, containing the subdirectory
`["repo", "subdir"]`; `git rev-parse --show-toplevel` resolves both to
the root. -/
def demoRoot : PathA → Option PathA :=
  fun p =>
    if p = ["repo"] ∨ p = ["repo", "subdir"] then some ["repo"]
    else Option.none

/-! ## Theorems -/

/-- Helper for C1: the `StandardResultHandler` loop under
`on_failure='stop'` on a stream whose kept prefix contains no failing
result, followed by a kept failing result: the prefix's kept results are
yielded, the failing result is recorded as the only failure and is *not*
yielded (the `break` precedes the `yield from`). -/
theorem srhLoop_stop_spec (pre : List DlResult) (f : DlResult)
    (post : List DlResult)
    (hpre : ∀ r ∈ pre, r.dropped = false → r.failing = false)
    (hfk : f.dropped = false) (hff : f.failing = true) :
    srhLoop "stop" (pre ++ f :: post) =
      (pre.filter (fun r => !r.dropped), [f]) := by
  induction pre with
  | nil =>
    simp [srhLoop, hfk, hff]
  | cons r rs ih =>
    have hrs : ∀ x ∈ rs, x.dropped = false → x.failing = false := by
      intro x hx
      exact hpre x (List.mem_cons_of_mem r hx)
    cases hd : r.dropped with
    | true =>
      simp [srhLoop, hd, ih hrs]
    | false =>
      have hrf : r.failing = false := hpre r (List.mem_cons_self r rs) hd
      simp [srhLoop, hd, hrf, ih hrs]

/-- **C1** (counterexample). For the producer yielding results with
statuses `ok, notneeded, impossible, error` under `on_failure='stop'`,
the handler yields only `ok, notneeded` — the triggering `impossible`
result is recorded as the single failure but is *not* yielded, because
the loop `break`s before the `yield from transform_result(res)`
statement. The claimed yield sequence `ok, notneeded, impossible` is
therefore not produced. -/
theorem standardResultHandler_stop_counterexample :
    standardResultHandler "stop"
      [⟨true, true, "ok"⟩, ⟨true, true, "notneeded"⟩,
       ⟨true, true, "impossible"⟩, ⟨true, true, "error"⟩] =
      ([⟨true, true, "ok"⟩, ⟨true, true, "notneeded"⟩],
       [⟨true, true, "impossible"⟩], true) ∧
    ([⟨true, true, "ok"⟩, ⟨true, true, "notneeded"⟩] : List DlResult) ≠
      [⟨true, true, "ok"⟩, ⟨true, true, "notneeded"⟩,
       ⟨true, true, "impossible"⟩] := by
  constructor
  · rfl
  · decide

/-- **C1** (amended). For every result stream driven by
`StandardResultHandler` with `on_failure='stop'`: the first kept result
whose status is `impossible` or `error` is recorded as the only failure
and halts iteration, and the triggering failing result is *not* yielded
before the generator ends; hence the yielded results are exactly the
kept non-failing results preceding it, and `ResultError` is raised with
`failed` holding exactly that first failing result. -/
theorem standardResultHandler_stop_amended (pre : List DlResult)
    (f : DlResult) (post : List DlResult)
    (hpre : ∀ r ∈ pre, r.dropped = false → r.failing = false)
    (hfk : f.dropped = false) (hff : f.failing = true) :
    standardResultHandler "stop" (pre ++ f :: post) =
      (pre.filter (fun r => !r.dropped), [f], true) := by
  unfold standardResultHandler
  rw [srhLoop_stop_spec pre f post hpre hfk hff]
  simp

/-- Witness for C1 (amended): the concrete `ok, notneeded, impossible,
error` stream. -/
theorem standardResultHandler_stop_amended_witness :
    standardResultHandler "stop"
      ([⟨true, true, "ok"⟩, ⟨true, true, "notneeded"⟩] ++
        ⟨true, true, "impossible"⟩ :: [⟨true, true, "error"⟩]) =
      ([⟨true, true, "ok"⟩, ⟨true, true, "notneeded"⟩].filter
         (fun r => !r.dropped),
       [⟨true, true, "impossible"⟩], true) :=
  standardResultHandler_stop_amended
    [⟨true, true, "ok"⟩, ⟨true, true, "notneeded"⟩]
    ⟨true, true, "impossible"⟩ [⟨true, true, "error"⟩]
    (by decide) (by decide) (by decide)

/-- **C3**. The restore loop of `GitEnvironment.overrides` `break`s after
deleting the first previously-absent key, so later entries of the
`restore` mapping are never processed: overriding `{a: x, b: new}` on an
environment where `a` is absent and `b` holds `old` leaves `b` at its
override value `new` after exit instead of restoring `old` — while the
same overrides applied in the opposite mapping order are fully
restored. This contradicts the documented contract of a scoped,
temporary override (the loop's delete branch should `continue`, not
`break`). -/
theorem gitenv_overrides_restore_bug :
    overridesRun [("b", ["old"])] [("a", ["x"]), ("b", ["new"])] =
      [("b", ["new"])] ∧
    envGet (overridesRun [("b", ["old"])] [("a", ["x"]), ("b", ["new"])])
      "b" = some ["new"] ∧
    envGet [("b", ["old"])] "b" = some ["old"] ∧
    (["new"] : List String) ≠ ["old"] ∧
    overridesRun [("b", ["old"])] [("b", ["new"]), ("a", ["x"])] =
      [("b", ["old"])] := by
  refine ⟨rfl, rfl, rfl, by decide, rfl⟩

/-- **C6** (counterexample). A successful git invocation with zero output
lines makes `call_git_oneline` fail with an `IndexError` (from
`lines[0]`), not with an `AssertionError`: the explicit assertion only
covers the more-than-one-line case. -/
theorem call_git_oneline_counterexample :
    call_git_oneline (Except.ok []) = Except.error RunError.indexError ∧
    RunError.indexError ≠ RunError.assertionError := by
  constructor
  · rfl
  · decide

/-- **C6** (amended). `call_git_oneline` returns the single line of a
successful invocation's captured stdout; a non-zero exit fails with
`CommandError`; a successful invocation with more than one output line
fails with an `AssertionError`; and a successful invocation with zero
output lines fails with an `IndexError` (an out-of-range list access,
not an assertion). -/
theorem call_git_oneline_amended :
    (∀ l : String, call_git_oneline (Except.ok [l]) = Except.ok l) ∧
    (call_git_oneline (Except.error ()) =
      Except.error RunError.commandError) ∧
    (∀ lines : List String, lines.length > 1 →
      call_git_oneline (Except.ok lines) =
        Except.error RunError.assertionError) ∧
    (call_git_oneline (Except.ok []) = Except.error RunError.indexError) := by
  refine ⟨fun l => rfl, rfl, ?_, rfl⟩
  intro lines h
  unfold call_git_oneline
  simp [h]

/-- Witness for C6 (amended): two output lines trigger the assertion. -/
theorem call_git_oneline_amended_witness :
    call_git_oneline (Except.ok ["a", "b"]) =
      Except.error RunError.assertionError :=
  call_git_oneline_amended.2.2.1 ["a", "b"] (by decide)

/-- **C2**. The flyweight cache is keyed by the *requested*
`path.absolute()`, which is never resolved to the worktree root (or
normalized at all) before the lookup: requesting a `Worktree` for the
root `["repo"]` and then for the interior path `["repo", "subdir"]`
constructs two distinct instances (ids 0 and 1), both with the same
resolved `path` attribute `["repo"]` — although both requests resolve to
the same Git-managed location and the cached root instance is still
valid. The repository's own test
(`test_worktree.py::test_worktree`, `assert wt_sub is wt`) requires the
single canonical instance instead. -/
theorem worktree_flyweight_not_canonical :
    worktreeCall demoRoot ⟨[], [], 0⟩ ["repo"] =
      some (0, ⟨[(["repo"], 0)], [(0, ["repo"])], 1⟩) ∧
    worktreeCall demoRoot ⟨[(["repo"], 0)], [(0, ["repo"])], 1⟩
        ["repo", "subdir"] =
      some (1, ⟨[(["repo", "subdir"], 1), (["repo"], 0)],
        [(1, ["repo"]), (0, ["repo"])], 2⟩) ∧
    (0 : Nat) ≠ 1 ∧
    demoRoot ["repo"] = demoRoot ["repo", "subdir"] ∧
    instPathGet [(1, ["repo"]), (0, ["repo"])] 0 = some ["repo"] ∧
    instPathGet [(1, ["repo"]), (0, ["repo"])] 1 = some ["repo"] := by
  refine ⟨rfl, rfl, by decide, rfl, rfl, rfl⟩

/-- **C7** (counterexample). For a worktree at `["wt"]` whose repository
git directory is `["wt", ".git"]` and whose
`extensions.worktreeConfig` is disabled, `Worktree.config` does *not*
reuse the owning `Repo`'s manager: it builds a distinct manager whose
`datalad-branch` source is bound to the worktree path, while the repo
manager's is bound to the git directory. -/
theorem worktree_config_counterexample :
    worktreeConfig ["wt"] ["wt", ".git"] false ≠ repoConfig ["wt", ".git"] ∧
    (worktreeConfig ["wt"] ["wt", ".git"] false).src "datalad-branch" =
      some (SrcSpec.dataladBranch ["wt"]) ∧
    (repoConfig ["wt", ".git"]).src "datalad-branch" =
      some (SrcSpec.dataladBranch ["wt", ".git"]) := by
  refine ⟨by decide, rfl, rfl⟩

/-- **C7** (amended). `Worktree.config` always builds a manager distinct
from the owning `Repo`'s: in both branches it repoints the
`datalad-branch` source at the worktree path (the repo manager binds it
to the git directory), while sharing the repo manager's `git-command`,
`git-local`, `git-global`, `git-system` and `defaults` source
instances. Only when `extensions.worktreeConfig` is enabled does the
manager additionally gain a `git-worktree` scope (declared protected,
inserted right after `git-command`). -/
theorem worktree_config_amended :
    (∀ wtPath repoPath : PathA,
      (worktreeConfig wtPath repoPath false).sources =
        [("git-command", SrcSpec.gitEnv),
         ("git-local", SrcSpec.localCfg repoPath),
         ("git-global", SrcSpec.globalCfg),
         ("git-system", SrcSpec.systemCfg),
         ("datalad-branch", SrcSpec.dataladBranch wtPath),
         ("defaults", SrcSpec.defaultsSrc)] ∧
      (worktreeConfig wtPath repoPath false).protectedKeys =
        ["git-command", "git-global", "git-system", "defaults",
         "git-local"]) ∧
    (∀ wtPath repoPath : PathA,
      (worktreeConfig wtPath repoPath true).sources =
        [("git-command", SrcSpec.gitEnv),
         ("git-worktree", SrcSpec.worktreeCfg wtPath),
         ("git-local", SrcSpec.localCfg repoPath),
         ("git-global", SrcSpec.globalCfg),
         ("git-system", SrcSpec.systemCfg),
         ("datalad-branch", SrcSpec.dataladBranch wtPath),
         ("defaults", SrcSpec.defaultsSrc)] ∧
      (worktreeConfig wtPath repoPath true).protectedKeys =
        ["git-command", "git-global", "git-system", "defaults",
         "git-local", "git-worktree"]) ∧
    (∀ (wtPath repoPath : PathA) (e : Bool), wtPath ≠ repoPath →
      worktreeConfig wtPath repoPath e ≠ repoConfig repoPath) ∧
    (∀ wtPath repoPath : PathA,
      ∀ n ∈ (["git-command", "git-local", "git-global", "git-system",
              "defaults"] : List String),
      (worktreeConfig wtPath repoPath false).src n =
        (repoConfig repoPath).src n) := by
  refine ⟨fun w r => ⟨rfl, rfl⟩, fun w r => ⟨rfl, rfl⟩, ?_, ?_⟩
  · intro w r e hne h
    apply hne
    have h1 := congrArg ScopeMgr.sources h
    have hr : (repoConfig r).sources =
        [("git-command", SrcSpec.gitEnv), ("git-local", SrcSpec.localCfg r),
         ("git-global", SrcSpec.globalCfg),
         ("git-system", SrcSpec.systemCfg),
         ("datalad-branch", SrcSpec.dataladBranch r),
         ("defaults", SrcSpec.defaultsSrc)] := rfl
    cases e with
    | false =>
      have hw : (worktreeConfig w r false).sources =
          [("git-command", SrcSpec.gitEnv),
           ("git-local", SrcSpec.localCfg r),
           ("git-global", SrcSpec.globalCfg),
           ("git-system", SrcSpec.systemCfg),
           ("datalad-branch", SrcSpec.dataladBranch w),
           ("defaults", SrcSpec.defaultsSrc)] := rfl
      rw [hw, hr] at h1
      simp only [List.cons.injEq, Prod.mk.injEq,
        SrcSpec.dataladBranch.injEq, and_true, true_and] at h1
      tauto
    | true =>
      have hw : (worktreeConfig w r true).sources =
          [("git-command", SrcSpec.gitEnv),
           ("git-worktree", SrcSpec.worktreeCfg w),
           ("git-local", SrcSpec.localCfg r),
           ("git-global", SrcSpec.globalCfg),
           ("git-system", SrcSpec.systemCfg),
           ("datalad-branch", SrcSpec.dataladBranch w),
           ("defaults", SrcSpec.defaultsSrc)] := rfl
      rw [hw, hr] at h1
      have h2 := congrArg List.length h1
      simp at h2
  · intro w r n hn
    simp only [List.mem_cons, List.not_mem_nil, or_false] at hn
    rcases hn with rfl | rfl | rfl | rfl | rfl <;> rfl

/-- Witness for C7 (amended): the distinctness clause at the concrete
worktree `["wt"]` with git directory `["wt", ".git"]`. -/
theorem worktree_config_amended_witness :
    worktreeConfig ["wt"] ["wt", ".git"] false ≠ repoConfig ["wt", ".git"] :=
  worktree_config_amended.2.2.1 ["wt"] ["wt", ".git"] false (by decide)

/-- Helper for C10: the sha-decoding step never yields the all-zero id. -/
theorem shaOfField_ne_zeros (s : String) : shaOfField s ≠ some zeros40 := by
  unfold shaOfField
  split <;> simp_all

/-- **C10**. Every `GitDiffItem` built by `_get_diff_item` from a raw
`git diff-index`/`diff-tree` record maps an all-zero 40-character object
id to an absent value: neither `gitsha` nor `prev_gitsha` of a decoded
item is ever the all-zero id — each is either a concrete object id or
`None`. -/
theorem get_diff_item_no_zero_sha (spec : List String) (item : DiffItem)
    (h : get_diff_item spec = some item) :
    item.gitsha ≠ some zeros40 ∧ item.prev_gitsha ≠ some zeros40 := by
  unfold get_diff_item at h
  repeat' split at h
  all_goals
    first
      | exact Option.noConfusion h
      | (have h2 := Option.some.inj h; subst h2;
         exact ⟨shaOfField_ne_zeros _, shaOfField_ne_zeros _⟩)

/-- Witness for C10: a concrete worktree-modification record whose
previous object id is all zeros decodes with `prev_gitsha = none`, and
neither decoded sha field is the all-zero id. -/
theorem get_diff_item_no_zero_sha_witness :
    ({ relpath := "file.txt", prev_relpath := some "file.txt",
       gitsha := some "abcd", prev_gitsha := Option.none,
       gittype := some TreeItemType.file,
       prev_gittype := some TreeItemType.file,
       status := DiffStatus.modification,
       percentage := Option.none,
       modification_types := Option.none } : DiffItem).gitsha ≠
        some zeros40 ∧
    ({ relpath := "file.txt", prev_relpath := some "file.txt",
       gitsha := some "abcd", prev_gitsha := Option.none,
       gittype := some TreeItemType.file,
       prev_gittype := some TreeItemType.file,
       status := DiffStatus.modification,
       percentage := Option.none,
       modification_types := Option.none } : DiffItem).prev_gitsha ≠
        some zeros40 :=
  get_diff_item_no_zero_sha
    ["100644", "100644", String.mk (List.replicate 40 '0'), "abcd", "M",
     "file.txt"] _ rfl

/-- Helper: eta-reduction of an `Option` match. -/
theorem optMatch_eta (o : Option Nat) :
    (match o with
     | some v2 => some v2
     | Option.none => Option.none) = o := by
  cases o <;> rfl

/-- Helper for C4: `AllOf` evaluation distributes over list append as
sequential composition. -/
theorem cevalAll_append (env : Nat → Nat → Option Nat)
    (xs ys : List Constraint) (v : Nat) :
    cevalAll env (xs ++ ys) v =
      match cevalAll env xs v with
      | some w => cevalAll env ys w
      | Option.none => Option.none := by
  induction xs generalizing v with
  | nil => simp [cevalAll]
  | cons c cs ih =>
    simp only [List.cons_append, cevalAll]
    cases ceval env c v with
    | none => rfl
    | some w => exact ih w

/-- Helper for C4: `AnyOf` evaluation distributes over list append as
first-success alternation. -/
theorem cevalAny_append (env : Nat → Nat → Option Nat)
    (xs ys : List Constraint) (v : Nat) :
    cevalAny env (xs ++ ys) v =
      match cevalAny env xs v with
      | some r => some r
      | Option.none => cevalAny env ys v := by
  induction xs with
  | nil => simp [cevalAny]
  | cons c cs ih =>
    simp only [List.cons_append, cevalAny]
    cases ceval env c v with
    | none => exact ih
    | some w => rfl

/-- Helper for C4: evaluation of `a & b` is the sequential composition of
the operands' evaluations, whatever shapes `cand` produced. -/
theorem ceval_cand (env : Nat → Nat → Option Nat) (X Y : Constraint)
    (v : Nat) :
    ceval env (cand X Y) v =
      match ceval env X v with
      | some w => ceval env Y w
      | Option.none => Option.none := by
  cases X with
  | base i =>
    cases Y <;> simp only [cand, ceval, cevalAll] <;>
      (cases env i v <;> simp [optMatch_eta])
  | allOf cs =>
    cases Y with
    | allOf os => simp only [cand, ceval, cevalAll_append]
    | base j =>
      simp only [cand, ceval, cevalAll_append, cevalAll]
      cases cevalAll env cs v <;> simp [optMatch_eta, ceval]
    | anyOf os =>
      simp only [cand, ceval, cevalAll_append, cevalAll]
      cases cevalAll env cs v <;> simp [optMatch_eta, ceval]
  | anyOf cs =>
    cases Y <;> simp only [cand, ceval, cevalAll, cevalAny] <;>
      (cases cevalAny env cs v <;> simp [optMatch_eta])

/-- Helper for C4: evaluation of `a | b` is first-success alternation of
the operands' evaluations, whatever shapes `cor` produced. -/
theorem ceval_cor (env : Nat → Nat → Option Nat) (X Y : Constraint)
    (v : Nat) :
    ceval env (cor X Y) v =
      match ceval env X v with
      | some r => some r
      | Option.none => ceval env Y v := by
  cases X with
  | base i =>
    cases Y <;> simp only [cor, ceval, cevalAny] <;>
      (cases env i v <;> simp [optMatch_eta])
  | anyOf cs =>
    cases Y with
    | anyOf os => simp only [cor, ceval, cevalAny_append]
    | base j =>
      simp only [cor, ceval, cevalAny_append, cevalAny]
      cases cevalAny env cs v <;> simp [optMatch_eta]
    | allOf os =>
      simp only [cor, ceval, cevalAny_append, cevalAny]
      cases cevalAny env cs v <;> simp [optMatch_eta]
  | allOf cs =>
    cases Y <;> simp only [cor, ceval, cevalAny, cevalAll] <;>
      (cases cevalAll env cs v <;> simp [optMatch_eta])

/-- Helper for C4: `&` is associative at the level of accepted/rejected
inputs and produced values. -/
theorem cand_assoc_eval (env : Nat → Nat → Option Nat) (A B C : Constraint)
    (v : Nat) :
    ceval env (cand (cand A B) C) v = ceval env (cand A (cand B C)) v := by
  simp only [ceval_cand]
  cases ceval env A v with
  | none => rfl
  | some a => cases ceval env B a <;> rfl

/-- Helper for C4: `|` is associative at the level of accepted/rejected
inputs and produced values. -/
theorem cor_assoc_eval (env : Nat → Nat → Option Nat) (A B C : Constraint)
    (v : Nat) :
    ceval env (cor (cor A B) C) v = ceval env (cor A (cor B C)) v := by
  simp only [ceval_cor]
  cases ceval env A v with
  | none => rfl
  | some a => rfl

/-- **C4** (counterexample). `(A & B) & C` flattens into
`AllOf [A, B, C]`, but `A & (B & C)` — a plain constraint on the left,
an `AllOf` on the right — nests: the base `Constraint.__and__` never
inspects its right operand, so the two expressions produce different
constraint trees, one of them containing a nested `AllOf`. -/
theorem constraint_and_counterexample :
    cand (cand (Constraint.base 0) (Constraint.base 1)) (Constraint.base 2) =
      Constraint.allOf
        [Constraint.base 0, Constraint.base 1, Constraint.base 2] ∧
    cand (Constraint.base 0) (cand (Constraint.base 1) (Constraint.base 2)) =
      Constraint.allOf [Constraint.base 0,
        Constraint.allOf [Constraint.base 1, Constraint.base 2]] ∧
    cand (Constraint.base 0) (cand (Constraint.base 1) (Constraint.base 2)) ≠
      cand (cand (Constraint.base 0) (Constraint.base 1))
        (Constraint.base 2) := by
  refine ⟨rfl, rfl, ?_⟩
  intro h
  simp [cand] at h

/-- **C4** (amended). `(A & B) & C` and `A & (B & C)` accept/reject
identical inputs and produce identical coerced outputs (and likewise
for `|`), but flattening happens only when the *left* operand is an
`AllOf` (resp. `AnyOf`): a left `AllOf` combined with a right `AllOf`,
plain constraint, or `AnyOf` yields one flat, ordered `AllOf`, whereas
a plain constraint or `AnyOf` on the left wraps both operands in a
fresh `AllOf` without flattening a right `AllOf` — so `A & (B & C)` is
the nested `AllOf [A, AllOf [B, C]]`. -/
theorem constraint_and_or_amended :
    (∀ (env : Nat → Nat → Option Nat) (A B C : Constraint) (v : Nat),
      ceval env (cand (cand A B) C) v = ceval env (cand A (cand B C)) v) ∧
    (∀ cs os, cand (Constraint.allOf cs) (Constraint.allOf os) =
      Constraint.allOf (cs ++ os)) ∧
    (∀ cs i, cand (Constraint.allOf cs) (Constraint.base i) =
      Constraint.allOf (cs ++ [Constraint.base i])) ∧
    (∀ cs os, cand (Constraint.allOf cs) (Constraint.anyOf os) =
      Constraint.allOf (cs ++ [Constraint.anyOf os])) ∧
    (∀ i X, cand (Constraint.base i) X =
      Constraint.allOf [Constraint.base i, X]) ∧
    (∀ cs X, cand (Constraint.anyOf cs) X =
      Constraint.allOf [Constraint.anyOf cs, X]) ∧
    (∀ (env : Nat → Nat → Option Nat) (A B C : Constraint) (v : Nat),
      ceval env (cor (cor A B) C) v = ceval env (cor A (cor B C)) v) ∧
    (∀ cs os, cor (Constraint.anyOf cs) (Constraint.anyOf os) =
      Constraint.anyOf (cs ++ os)) ∧
    (∀ cs i, cor (Constraint.anyOf cs) (Constraint.base i) =
      Constraint.anyOf (cs ++ [Constraint.base i])) ∧
    (∀ cs os, cor (Constraint.anyOf cs) (Constraint.allOf os) =
      Constraint.anyOf (cs ++ [Constraint.allOf os])) ∧
    (∀ i X, cor (Constraint.base i) X =
      Constraint.anyOf [Constraint.base i, X]) ∧
    (∀ cs X, cor (Constraint.allOf cs) X =
      Constraint.anyOf [Constraint.allOf cs, X]) := by
  refine ⟨cand_assoc_eval, fun cs os => rfl, fun cs i => rfl,
    fun cs os => rfl, fun i X => rfl, fun cs X => rfl, cor_assoc_eval,
    fun cs os => rfl, fun cs i => rfl, fun cs os => rfl, fun i X => rfl,
    fun cs X => rfl⟩

/-- Helper for C5: `Char.toLower` fixes decimal digits. -/
theorem digit_toLower (c : Char) (h : c.isDigit = true) : c.toLower = c := by
  simp only [Char.isDigit, Bool.and_eq_true, decide_eq_true_eq] at h
  unfold Char.toLower
  rw [if_neg]
  rintro ⟨h1, h2⟩
  have hle : c.val.toNat ≤ 57 := UInt32.toNat_le_of_le (by decide) h.2
  simp only [Char.toNat] at h1
  omega

/-- Helper for C5: `str.lower()` fixes all-digit strings. -/
theorem toLower_of_digits (s : String) (h : s.data.all Char.isDigit = true) :
    s.toLower = s := by
  show String.map Char.toLower s = s
  rw [String.map_eq]
  cases s with
  | mk data =>
    simp only
    congr 1
    have hd : ∀ c ∈ data, Char.toLower c = c := by
      intro c hc
      exact digit_toLower c (List.all_eq_true.mp h c hc)
    calc data.map Char.toLower = data.map id := List.map_congr_left hd
      _ = data := List.map_id data

/-- Helper for C5: `str.lower()` computed on the character data. -/
theorem toLower_data (s : String) :
    s.toLower = String.mk (s.data.map Char.toLower) := by
  show String.map Char.toLower s = _
  rw [String.map_eq]

/-- Helper for C5: every hashable falsy value is mapped to `False` — the
`not bool(val)` disjunct of the first return condition catches `None`,
`0`, `False` and the empty string alike (lists never reach it: the
set-membership test raises first). -/
theorem anything2bool_falsy (v : PyVal) (hh : pyHashable v = true)
    (h : pyTruthy v = false) : anything2bool v = .ok false := by
  cases v with
  | str s =>
    simp only [pyTruthy, ne_eq, decide_not, Bool.not_eq_false',
      decide_eq_true_eq] at h
    simp [anything2bool, h]
  | bool b =>
    simp only [pyTruthy] at h
    subst h
    rfl
  | int i =>
    simp only [pyTruthy, ne_eq, decide_not, Bool.not_eq_false',
      decide_eq_true_eq] at h
    subst h
    rfl
  | none => rfl
  | list n => exact absurd hh (by simp [pyHashable])

/-- Helper for C5: every list input — empty or not — raises `TypeError`
at the first set-membership test, before `not bool(val)` is ever
evaluated. -/
theorem anything2bool_list (n : Nat) :
    anything2bool (PyVal.list n) = .error PyError.typeError := rfl

/-- Helper for C5: the case-insensitive false spellings. -/
theorem anything2bool_false_strings (s : String)
    (h : s.toLower = "off" ∨ s.toLower = "no" ∨ s.toLower = "false" ∨
      s.toLower = "0") :
    anything2bool (PyVal.str s) = .ok false := by
  by_cases hs : s = ""
  · subst hs
    rfl
  · rcases h with h | h | h | h <;>
      simp [anything2bool, pyLower, inFalseSet, hs, h]

/-- Helper for C5: the case-insensitive true spellings. -/
theorem anything2bool_true_strings (s : String)
    (h : s.toLower = "on" ∨ s.toLower = "yes" ∨ s.toLower = "true") :
    anything2bool (PyVal.str s) = .ok true := by
  have hs : s ≠ "" := by
    intro hs
    subst hs
    rw [toLower_of_digits "" (by decide)] at h
    rcases h with h | h | h <;> exact absurd h (by decide)
  rcases h with h | h | h <;>
    simp [anything2bool, pyLower, inFalseSet, inTrueSet, pyTruthy, hs, h]

/-- Helper for C5: non-zero integers are true. -/
theorem anything2bool_true_int (i : Int) (hi : i ≠ 0) :
    anything2bool (PyVal.int i) = .ok true := by
  simp [anything2bool, pyLower, inFalseSet, inTrueSet, pyIsInt, pyTruthy, hi]

/-- Helper for C5: digit strings with non-zero value are true. -/
theorem anything2bool_digits (s : String) (hne : s.data ≠ [])
    (hall : s.data.all Char.isDigit = true)
    (hnz : digitsVal s.data ≠ 0) :
    anything2bool (PyVal.str s) = .ok true := by
  have hlow := toLower_of_digits s hall
  have hs : s ≠ "" := by
    intro h
    subst h
    exact hne (by decide)
  have hoff : s ≠ "off" := by
    intro h; subst h; exact absurd hall (by decide)
  have hno : s ≠ "no" := by
    intro h; subst h; exact absurd hall (by decide)
  have hfal : s ≠ "false" := by
    intro h; subst h; exact absurd hall (by decide)
  have hzero : s ≠ "0" := by
    intro h; subst h; exact hnz (by decide)
  simp [anything2bool, pyLower, inFalseSet, inTrueSet, pyTruthy, pyIsdigit,
    pyStrToInt, hlow, hs, hoff, hno, hfal, hzero, hne, hall, hnz]

/-- **C5** (counterexample). `anything2bool` does *not* fail with the
InvalidValue condition on `None`, the integer `0`, or an empty list:
the `or not bool(val)` disjunct maps `None` and `0` to `False` instead
of raising, and a list raises a `TypeError` from the unhashable
set-membership test — a different error kind than the claimed
`Cannot interpret ... as a boolean` failure. -/
theorem anything2bool_counterexample :
    anything2bool PyVal.none = .ok false ∧
    anything2bool (PyVal.int 0) = .ok false ∧
    anything2bool (PyVal.list 0) = .error PyError.typeError ∧
    PyError.typeError ≠ PyError.valueError :=
  ⟨rfl, rfl, rfl, by decide⟩

/-- **C5** (amended). `anything2bool` maps every hashable falsy input
(the empty string, boolean false, `None`, the integer 0) and every
case-insensitive `off`/`no`/`false`/`0` spelling to false; maps
case-insensitive `on`/`yes`/`true`, boolean true, non-zero integers,
and digit strings with non-zero integer value to true; raises a
`TypeError` on any list input (empty or not), because the
set-membership test hashes the value before `not bool(val)` is
reached; and fails with the InvalidValue condition
(`Cannot interpret <value> as a boolean`) on remaining values such as
`'broken'`. -/
theorem anything2bool_amended :
    (∀ v, pyHashable v = true → pyTruthy v = false →
      anything2bool v = .ok false) ∧
    (∀ n : Nat, anything2bool (PyVal.list n) = .error PyError.typeError) ∧
    (∀ s : String,
      (s.toLower = "off" ∨ s.toLower = "no" ∨ s.toLower = "false" ∨
        s.toLower = "0") →
      anything2bool (PyVal.str s) = .ok false) ∧
    (∀ s : String,
      (s.toLower = "on" ∨ s.toLower = "yes" ∨ s.toLower = "true") →
      anything2bool (PyVal.str s) = .ok true) ∧
    anything2bool (PyVal.bool true) = .ok true ∧
    (∀ i : Int, i ≠ 0 → anything2bool (PyVal.int i) = .ok true) ∧
    (∀ s : String, s.data ≠ [] → s.data.all Char.isDigit = true →
      digitsVal s.data ≠ 0 → anything2bool (PyVal.str s) = .ok true) ∧
    anything2bool (PyVal.str "broken") = .error PyError.valueError := by
  refine ⟨anything2bool_falsy, anything2bool_list,
    anything2bool_false_strings, anything2bool_true_strings, rfl,
    anything2bool_true_int, anything2bool_digits, ?_⟩
  simp only [anything2bool, pyLower, toLower_data]
  rfl

/-- Witness for C5 (amended): concrete instances of each hypothetical
clause. -/
theorem anything2bool_amended_witness :
    anything2bool PyVal.none = .ok false ∧
    anything2bool (PyVal.str "OFF") = .ok false ∧
    anything2bool (PyVal.str "ON") = .ok true ∧
    anything2bool (PyVal.int 2) = .ok true ∧
    anything2bool (PyVal.str "42") = .ok true := by
  refine ⟨anything2bool_amended.1 PyVal.none rfl rfl,
    anything2bool_amended.2.2.1 "OFF" ?_,
    anything2bool_amended.2.2.2.1 "ON" ?_,
    anything2bool_amended.2.2.2.2.2.1 2 (by decide),
    anything2bool_amended.2.2.2.2.2.2.1 "42" (by decide) (by decide)
      (by decide)⟩
  · left
    rw [toLower_data]
    decide
  · left
    rw [toLower_data]
    decide

/-- Helper for C9: the `_iter_gitworktree` loop with a buffered pending
item emits exactly the adjacent-duplicate-suppressed sequence, keeping
the last record of each same-path run. -/
theorem wtLoop_dedup (records : List WtItem) (p : WtItem)
    (dirs : List (List String)) :
    wtLoop false (some p) dirs (records.map some ++ [Option.none]) =
      dedupLast (p :: records) := by
  induction records generalizing p dirs with
  | nil =>
    simp [wtLoop, dedupLast, relDiffers]
  | cons r rs ih =>
    by_cases h : r.relpath = p.relpath
    · simp [wtLoop, relDiffers, dedupLast, h, ih]
    · simp [wtLoop, relDiffers, dedupLast, h, ih, Ne.symm h]

/-- Helper for C9: in `repository` recursion (`singleDir = false`) the
record loop equals `dedupLast`. -/
theorem iterGitworktree_dedup (records : List WtItem) :
    iterGitworktreeRecords false records = dedupLast records := by
  cases records with
  | nil => rfl
  | cons r rs =>
    unfold iterGitworktreeRecords
    simp only [List.map_cons, List.cons_append]
    have hstep : wtLoop false Option.none []
        (some r :: (rs.map some ++ [Option.none])) =
        wtLoop false (some r) [] (rs.map some ++ [Option.none]) := by
      simp [wtLoop, relDiffers]
    rw [hstep, wtLoop_dedup]

/-- Helper for C9: suppression never loses a path — a path occurs among
the emitted records iff it occurs among the input records. -/
theorem dedupLast_exists_relpath (l : List WtItem) (p : List String) :
    (∃ r ∈ dedupLast l, r.relpath = p) ↔ (∃ r ∈ l, r.relpath = p) := by
  induction l with
  | nil => simp [dedupLast]
  | cons x tail ih =>
    cases tail with
    | nil => simp [dedupLast]
    | cons y rest =>
      by_cases hxy : x.relpath = y.relpath
      · simp only [dedupLast, if_pos hxy]
        rw [ih]
        simp only [List.exists_mem_cons_iff]
        constructor
        · intro h
          exact Or.inr h
        · rintro (hx | h)
          · exact Or.inl (hxy ▸ hx)
          · exact h
      · simp only [dedupLast, if_neg hxy]
        simp only [List.exists_mem_cons_iff] at ih ⊢
        rw [ih]

/-- Helper for C9: when the emitted paths are pairwise distinct (which
holds whenever same-path input records are adjacent, as in sorted
`ls-files` output), the emitted record for any path is exactly the last
input record with that path. -/
theorem dedupLast_filter_last (l : List WtItem) (p : List String)
    (hnd : ((dedupLast l).map WtItem.relpath).Nodup) :
    (dedupLast l).filter (fun r => decide (r.relpath = p)) =
      ((l.filter (fun r => decide (r.relpath = p))).getLast?).toList := by
  induction l with
  | nil => simp [dedupLast]
  | cons x tail ih =>
    cases tail with
    | nil =>
      simp only [dedupLast, List.filter_cons, List.filter_nil]
      by_cases hp : x.relpath = p
      · simp [hp]
      · simp [hp]
    | cons y rest =>
      by_cases hxy : x.relpath = y.relpath
      · simp only [dedupLast, if_pos hxy] at hnd ⊢
        rw [ih hnd]
        by_cases hp : x.relpath = p
        · have hyp : y.relpath = p := hxy ▸ hp
          simp only [List.filter_cons, hp, hyp, decide_True, if_true]
          rw [List.getLast?_cons_cons]
        · simp [List.filter_cons, hp]
      · simp only [dedupLast, if_neg hxy] at hnd ⊢
        simp only [List.map_cons, List.nodup_cons] at hnd
        obtain ⟨hxmem, hnd2⟩ := hnd
        by_cases hp : x.relpath = p
        · subst hp
          have hdn : (dedupLast (y :: rest)).filter
              (fun r => decide (r.relpath = x.relpath)) = [] := by
            rw [List.filter_eq_nil_iff]
            intro a ha
            simp only [decide_eq_true_eq]
            intro har
            exact hxmem (har ▸ List.mem_map_of_mem WtItem.relpath ha)
          have htl : (y :: rest).filter
              (fun r => decide (r.relpath = x.relpath)) = [] := by
            rw [List.filter_eq_nil_iff]
            intro a ha
            simp only [decide_eq_true_eq]
            intro har
            have hex : ∃ r ∈ y :: rest, r.relpath = x.relpath :=
              ⟨a, ha, har⟩
            rw [← dedupLast_exists_relpath] at hex
            obtain ⟨r, hr, hrp⟩ := hex
            rw [List.filter_eq_nil_iff] at hdn
            exact hdn r hr (by simp [hrp])
          simp [List.filter_cons, hdn, htl]
        · simp only [List.filter_cons, hp, decide_False, Bool.false_eq_true,
            if_false]
          rw [ih hnd2, List.filter_cons]

/-- **C9**. In repository recursion, `_iter_gitworktree` buffers one
record and emits it only once the next record's path differs (or the
output ends), so a later record for the same path suppresses an
adjacent earlier one: the emitted sequence equals the
adjacent-last-record suppression of the input. Consequently, whenever
same-path `ls-files` records are adjacent (as in Git's sorted output —
equivalently, whenever the emitted paths are pairwise distinct), at
most one item is yielded per path, and it is the last input record with
that path. -/
theorem iter_gitworktree_last_per_path :
    (∀ records, iterGitworktreeRecords false records = dedupLast records) ∧
    (∀ (records : List WtItem) (p : List String),
      ((dedupLast records).map WtItem.relpath).Nodup →
      (iterGitworktreeRecords false records).filter
          (fun r => decide (r.relpath = p)) =
        ((records.filter (fun r => decide (r.relpath = p))).getLast?).toList ∧
      ((iterGitworktreeRecords false records).filter
          (fun r => decide (r.relpath = p))).length ≤ 1) := by
  refine ⟨iterGitworktree_dedup, ?_⟩
  intro records p hnd
  have hf := dedupLast_filter_last records p hnd
  rw [iterGitworktree_dedup records]
  refine ⟨hf, ?_⟩
  rw [hf]
  cases (records.filter (fun r => decide (r.relpath = p))).getLast? <;> simp

/-- Witness for C9: three stage-records for path `a` followed by one for
path `b` — only the third `a` record survives. -/
theorem iter_gitworktree_last_per_path_witness :
    (iterGitworktreeRecords false
        [⟨["a"], some "s1", some "file"⟩, ⟨["a"], some "s2", some "file"⟩,
         ⟨["a"], some "s3", some "file"⟩,
         ⟨["b"], Option.none, Option.none⟩]).filter
        (fun r => decide (r.relpath = ["a"])) =
      (([⟨["a"], some "s1", some "file"⟩, ⟨["a"], some "s2", some "file"⟩,
         ⟨["a"], some "s3", some "file"⟩,
         ⟨["b"], Option.none, Option.none⟩].filter
          (fun r => decide (r.relpath = ["a"]))).getLast?).toList ∧
    ((iterGitworktreeRecords false
        [⟨["a"], some "s1", some "file"⟩, ⟨["a"], some "s2", some "file"⟩,
         ⟨["a"], some "s3", some "file"⟩,
         ⟨["b"], Option.none, Option.none⟩]).filter
        (fun r => decide (r.relpath = ["a"]))).length ≤ 1 :=
  iter_gitworktree_last_per_path.2
    [⟨["a"], some "s1", some "file"⟩, ⟨["a"], some "s2", some "file"⟩,
     ⟨["a"], some "s3", some "file"⟩, ⟨["b"], Option.none, Option.none⟩]
    ["a"] (by decide)

/-- Helper for C8: a non-protected scope never contributes to the fold. -/
theorem protStep_skip (m : CfgManager) (key : String) (acc : Option CItem)
    (sc : CfgScope) (h : m.protectedKeys.contains sc.name = false) :
    protStep m key acc sc = acc := by
  unfold protStep
  rw [if_neg (by simpa using h)]

/-- Helper for C8: the fold over all scopes equals the fold over the
protected scopes only. -/
theorem foldl_protStep_filter (m : CfgManager) (key : String)
    (l : List CfgScope) (acc : Option CItem) :
    l.foldl (protStep m key) acc =
      (l.filter fun sc => m.protectedKeys.contains sc.name).foldl
        (protStep m key) acc := by
  induction l generalizing acc with
  | nil => rfl
  | cons sc rest ih =>
    by_cases h : m.protectedKeys.contains sc.name
    · simp only [List.foldl_cons, List.filter_cons, h, if_true]
      exact ih _
    · have hb : m.protectedKeys.contains sc.name = false := by
        simpa using h
      simp only [List.foldl_cons, List.filter_cons, hb, Bool.false_eq_true,
        if_false, protStep_skip m key acc sc hb]
      exact ih _

/-- Helper for C8: over protected scopes, the fold consumes exactly the
items each scope defines for the key. -/
theorem foldl_protStep_chain (m : CfgManager) (key : String)
    (l : List CfgScope) (acc : Option CItem)
    (hl : ∀ sc ∈ l, m.protectedKeys.contains sc.name = true) :
    l.foldl (protStep m key) acc =
      (l.filterMap fun sc => scopeGet sc key).foldl chainStep acc := by
  induction l generalizing acc with
  | nil => rfl
  | cons sc rest ih =>
    have hsc := hl sc (List.mem_cons_self sc rest)
    have hrest : ∀ x ∈ rest, m.protectedKeys.contains x.name = true :=
      fun x hx => hl x (List.mem_cons_of_mem sc hx)
    have hmem : sc.name ∈ m.protectedKeys := by simpa using hsc
    simp only [List.foldl_cons, List.filterMap_cons]
    cases hg : scopeGet sc key with
    | none =>
      have hstep : protStep m key acc sc = acc := by
        simp [protStep, hmem, hg]
      rw [hstep]
      exact ih _ hrest
    | some it =>
      have hstep : protStep m key acc sc = chainStep acc it := by
        cases acc <;> simp [protStep, hmem, hg, chainStep]
      rw [hstep]
      simp only [List.foldl_cons]
      exact ih _ hrest

/-- Helper for C8: `get_from_protected_sources` equals the specified fold
over the chain of protected definitions. -/
theorem getFromProtected_eq_chain (m : CfgManager) (key : String)
    (dflt : CItem) :
    getFromProtectedSources m key dflt =
      protFoldSpec (protChain m key) dflt := by
  unfold getFromProtectedSources protFoldSpec protChain
  rw [foldl_protStep_filter, foldl_protStep_chain]
  intro sc hsc
  exact (List.mem_filter.mp hsc).2

/-- Helper for C8: the protected chain depends only on the protected
scopes' relative order and contents. -/
theorem protChain_congr (m1 m2 : CfgManager) (key : String)
    (hf : (m1.sources.filter fun sc => m1.protectedKeys.contains sc.name) =
      (m2.sources.filter fun sc => m2.protectedKeys.contains sc.name)) :
    protChain m1 key = protChain m2 key := by
  unfold protChain
  rw [List.filter_reverse, List.filter_reverse, hf]

/-- Helper for C8: once seeded, the chain fold is the plain update fold. -/
theorem chainFold_some (cur : CItem) (its : List CItem) :
    its.foldl chainStep (some cur) = some (its.foldl CItem.update cur) := by
  induction its generalizing cur with
  | nil => rfl
  | cons it rest ih =>
    simp only [List.foldl_cons, chainStep]
    exact ih _

/-- Helper for C8: the update fold keeps the seed's coercion rule. -/
theorem foldl_update_coercer (cur : CItem) (its : List CItem) :
    (its.foldl CItem.update cur).coercer = cur.coercer := by
  induction its generalizing cur with
  | nil => rfl
  | cons it rest ih =>
    simp only [List.foldl_cons]
    rw [ih]
    rfl

/-- Helper for C8: the update fold takes the last folded item's value. -/
theorem foldl_update_pristine (cur : CItem) (its : List CItem) :
    (its.foldl CItem.update cur).pristine =
      match its.getLast? with
      | some l2 => l2.pristine
      | Option.none => cur.pristine := by
  induction its generalizing cur with
  | nil => rfl
  | cons it rest ih =>
    simp only [List.foldl_cons]
    rw [ih]
    cases rest with
    | nil => rfl
    | cons b t =>
      rw [List.getLast?_cons_cons]
      cases h : (b :: t).getLast? with
      | none =>
        rw [List.getLast?_eq_none_iff] at h
        exact absurd h (by simp)
      | some l2 => rfl

/-- **C8**. `get_from_protected_sources` consults only the protected
scopes, folding from lowest to highest precedence: it equals the
specified fold over the chain of protected definitions, the resulting
item's coercion rule (type/shape) comes from the lowest-precedence
protected definition and its value from the highest, and two manager
states that agree on the ordered contents of their protected scopes —
however much their non-protected scopes differ — return the identical
setting (two-run noninterference). -/
theorem getFromProtected_claim :
    (∀ (m1 m2 : CfgManager) (key : String) (dflt : CItem),
      (m1.sources.filter fun sc => m1.protectedKeys.contains sc.name) =
        (m2.sources.filter fun sc => m2.protectedKeys.contains sc.name) →
      getFromProtectedSources m1 key dflt =
        getFromProtectedSources m2 key dflt) ∧
    (∀ (m : CfgManager) (key : String) (dflt : CItem),
      getFromProtectedSources m key dflt =
        protFoldSpec (protChain m key) dflt) ∧
    (∀ (m : CfgManager) (key : String) (dflt : CItem) (seed : CItem)
        (rest : List CItem),
      protChain m key = seed :: rest →
      (getFromProtectedSources m key dflt).coercer = seed.coercer ∧
      (∀ lastIt : CItem, (seed :: rest).getLast? = some lastIt →
        lastIt.pristine ≠ Option.none →
        (getFromProtectedSources m key dflt).pristine = lastIt.pristine)) := by
  refine ⟨?_, getFromProtected_eq_chain, ?_⟩
  · intro m1 m2 key dflt hf
    rw [getFromProtected_eq_chain, getFromProtected_eq_chain,
      protChain_congr m1 m2 key hf]
  · intro m key dflt seed rest hchain
    rw [getFromProtected_eq_chain, hchain]
    unfold protFoldSpec
    simp only [List.foldl_cons, chainStep, chainFold_some]
    have hpr := foldl_update_pristine seed rest
    have hco := foldl_update_coercer seed rest
    constructor
    · split
      · rw [CItem.update]
        exact hco
      · exact hco
    · intro lastIt hlast hne
      have hpr2 : (rest.foldl CItem.update seed).pristine =
          lastIt.pristine := by
        rw [hpr]
        cases rest with
        | nil =>
          simp only [List.getLast?_singleton, Option.some.injEq] at hlast
          subst hlast
          rfl
        | cons b t =>
          rw [List.getLast?_cons_cons] at hlast
          rw [hlast]
      rw [if_neg]
      · exact hpr2
      · rw [hpr2]
        exact hne

/-- Witness for C8: two concrete managers agreeing on their protected
scopes but holding different `datalad-branch` content return the same
item, whose coercer comes from the `defaults` definition (the lowest
protected scope defining the key) and whose value comes from
`git-local` (the highest). -/
theorem getFromProtected_claim_witness :
    getFromProtectedSources demoMgr1 "k" ⟨Option.none, Option.none⟩ =
      getFromProtectedSources demoMgr2 "k" ⟨Option.none, Option.none⟩ ∧
    (getFromProtectedSources demoMgr1 "k"
        ⟨Option.none, Option.none⟩).coercer = some 1 ∧
    (getFromProtectedSources demoMgr1 "k"
        ⟨Option.none, Option.none⟩).pristine = some "local" := by
  have hni := getFromProtected_claim.1 demoMgr1 demoMgr2 "k"
    ⟨Option.none, Option.none⟩ (by decide)
  have hsv := getFromProtected_claim.2.2 demoMgr1 "k"
    ⟨Option.none, Option.none⟩ ⟨Option.none, some 1⟩
    [⟨some "local", some 2⟩] (by decide)
  refine ⟨hni, hsv.1, ?_⟩
  exact hsv.2 ⟨some "local", some 2⟩ (by decide) (by decide)

end DataladCore
